import Mathlib

/-!
Shallow embedding of the lyrics subsystem of `server.js` (LRC parser,
provider-adapter normalization cores, title/artist normalizer, resolution
pipeline and output serialization), together with theorems checking the
specification's claims against it.

Conventions of the embedding:
* JavaScript strings are `String` / `List Char`; absent (`undefined`) string
  parameters are modelled as `""`, which matches the source because every use
  of those parameters is a truthiness test (both `""` and `undefined` are
  falsy) or is guarded by one.
* JavaScript numbers holding millisecond offsets are modelled as `Nat`; the
  source only ever produces non-negative integers for them, and the float
  divisions `x/1000`, `%60`, `/10` followed by `Math.floor` agree with the
  corresponding `Nat` divisions on the exactly-representable range.
* Regular-expression scans are modelled by explicit character-list scanners
  implementing the exact backtracking semantics of the source patterns.
* `Array.prototype.sort` with comparator `(a,b) => a.startTimeMs - b.startTimeMs`
  is a stable ascending sort (ES2019); it is modelled by a stable insertion
  sort.
-/

/-- Whitespace class used by JavaScript `\s` and `String.prototype.trim`
(restricted to the characters that can actually occur in the modelled data:
ASCII whitespace and NBSP). -/
def jsIsSpace (c : Char) : Bool :=
  c = ' ' || c = '\t' || c = '\n' || c = '\r' || c = '\x0B' || c = '\x0C' || c = '\u00A0'

/-- Characters that JavaScript `.` (without the dotAll flag) cannot match:
the line terminators LF, CR, LS and PS. -/
def jsDotNomatch (c : Char) : Bool :=
  c = '\n' || c = '\r' || c = '\u2028' || c = '\u2029'

/-- JavaScript `String.prototype.trim` on a character list. -/
def jsTrimList (l : List Char) : List Char :=
  ((l.dropWhile jsIsSpace).reverse.dropWhile jsIsSpace).reverse

/-- JavaScript `String.prototype.trim`. -/
def jsTrimS (s : String) : String :=
  String.mk (jsTrimList s.data)

/-- Value of a list of decimal digit characters (JavaScript `parseInt` on an
all-digit string). -/
def digitsVal (l : List Char) : Nat :=
  l.foldl (fun acc c => acc * 10 + (c.toNat - 48)) 0

/-- One parsed line of lyrics: `{ words, startTimeMs }` in the source. -/
structure LyricLine where
  words : String
  startTimeMs : Nat
deriving DecidableEq, Repr

/-- Raw capture of one match of the LRC tag pattern
`\[(\d{2}):(\d{2})(?:\.(\d{2,3}))?\](.+)`: minutes, seconds, the `parseInt`
value of the optional fraction capture, and the raw (untrimmed) text capture. -/
structure LRCRawMatch where
  minutes : Nat
  seconds : Nat
  fracVal : Option Nat
  text : List Char
deriving DecidableEq, Repr

/-- Matches the optional fraction `(?:\.(\d{2,3}))?` followed by `]`, exactly
as the backtracking engine does: three digits are preferred, two accepted,
otherwise the optional group is skipped and `]` must follow directly.
Returns the `parseInt` value of the captured fraction (if any) and the
characters after the `]`. -/
def matchFrac : List Char → Option (Option Nat × List Char)
  | ']' :: r => some (none, r)
  | '.' :: d1 :: d2 :: ']' :: r =>
    if d1.isDigit && d2.isDigit then some (some (digitsVal [d1, d2]), r) else none
  | '.' :: d1 :: d2 :: d3 :: ']' :: r =>
    if d1.isDigit && d2.isDigit && d3.isDigit then
      some (some (digitsVal [d1, d2, d3]), r)
    else none
  | _ => none

/-- Attempts the pattern `\[(\d{2}):(\d{2})(?:\.(\d{2,3}))?\](.+)` anchored at
the start of the given characters.  `.` does not match a line terminator, so
the text capture is the (greedy, at least one character) run up to the end of
the line.
On success returns the capture and the characters after the whole match. -/
def tryMatchLRC : List Char → Option (LRCRawMatch × List Char)
  | '[' :: m1 :: m2 :: ':' :: s1 :: s2 :: rest =>
    if m1.isDigit && m2.isDigit && s1.isDigit && s2.isDigit then
      match matchFrac rest with
      | some (frac, afterBracket) =>
        let text := afterBracket.takeWhile (fun c => !jsDotNomatch c)
        if text = [] then none
        else some (⟨digitsVal [m1, m2], digitsVal [s1, s2], frac, text⟩,
                   afterBracket.drop text.length)
      | none => none
    else none
  | _ => none

/-- Global scan of the LRC tag pattern (the `while ((match = lrcPattern.exec(...)))`
loop): try a match at each position, resuming after each full match.  The fuel
argument bounds the recursion; it is instantiated with the input length, which
suffices because every step consumes at least one character. -/
def scanLRCAux : Nat → List Char → List LRCRawMatch
  | 0, _ => []
  | _, [] => []
  | fuel + 1, c :: cs =>
    match tryMatchLRC (c :: cs) with
    | some (m, rest) => m :: scanLRCAux fuel rest
    | none => scanLRCAux fuel cs

/-- All matches of the LRC tag pattern in the text. -/
def scanLRC (l : List Char) : List LRCRawMatch :=
  scanLRCAux l.length l

/-- Loop body of the scan in `parseLRCLyrics`: drop matches whose text is
empty after trimming, convert minutes/seconds to milliseconds and add the
fraction — the source multiplies by 10 exactly when the `parseInt` value of
the fraction is positive and below 100. -/
def rawToLine (m : LRCRawMatch) : Option LyricLine :=
  let text := jsTrimList m.text
  if text = [] then none
  else
    let base := (m.minutes * 60 + m.seconds) * 1000
    let ms := m.fracVal.getD 0
    let add := if 0 < ms then (if ms < 100 then ms * 10 else ms) else 0
    some ⟨String.mk text, base + add⟩

/-- Matches the bare tag pattern `\[\d{2}:\d{2}(?:\.\d{2,3})?\]` (no text
requirement) anchored at the start; returns the characters after the `]`. -/
def tryMatchBareTag : List Char → Option (List Char)
  | '[' :: m1 :: m2 :: ':' :: s1 :: s2 :: rest =>
    if m1.isDigit && m2.isDigit && s1.isDigit && s2.isDigit then
      match matchFrac rest with
      | some (_, r) => some r
      | none => none
    else none
  | _ => none

/-- Global replace of the bare tag pattern with the empty string
(`line.replace(/\[\d{2}:\d{2}(?:\.\d{2,3})?\]/g, '')`), fuelled like the scan. -/
def stripTagsAux : Nat → List Char → List Char
  | 0, l => l
  | _, [] => []
  | fuel + 1, c :: cs =>
    match tryMatchBareTag (c :: cs) with
    | some rest => stripTagsAux fuel rest
    | none => c :: stripTagsAux fuel cs

/-- Removes every occurrence of the bare tag pattern from a line. -/
def stripTags (l : List Char) : List Char :=
  stripTagsAux l.length l

/-- JavaScript `String.prototype.split('\n')` on a character list: empty
segments are preserved, and the result always has at least one segment. -/
def splitOnNewline : List Char → List (List Char)
  | [] => [[]]
  | c :: cs =>
    if c = '\n' then [] :: splitOnNewline cs
    else
      match splitOnNewline cs with
      | [] => [[c]]
      | h :: t => (c :: h) :: t

/-- Test `^\[(ar|ti|al|by|offset):/i` for a metadata line of the fallback
branch (anchored at the start of the untrimmed line, case-insensitive). -/
def isMetadataLine (l : List Char) : Bool :=
  match l with
  | '[' :: rest =>
    let low := rest.map Char.toLower
    List.isPrefixOf "ar:".data low || List.isPrefixOf "ti:".data low ||
    List.isPrefixOf "al:".data low || List.isPrefixOf "by:".data low ||
    List.isPrefixOf "offset:".data low
  | _ => false

/-- Fallback branch of `parseLRCLyrics`: when the timestamped scan produced no
lines, keep every line that is non-empty after trimming and is not a metadata
line, strip timestamp-like tags from it, trim, drop it if that leaves nothing,
and emit the remainder with `startTimeMs = 0` in original order. -/
def fallbackLines (t : String) : List LyricLine :=
  ((splitOnNewline t.data).filter
      (fun line => jsTrimList line != [] && !isMetadataLine line)).filterMap
    (fun line =>
      let cleaned := jsTrimList (stripTags line)
      if cleaned = [] then none else some ⟨String.mk cleaned, 0⟩)

/-- Stable insertion into a list sorted ascending by `startTimeMs`: the new
element goes after every element whose key is less than or equal to its own. -/
def insertByTime (x : LyricLine) : List LyricLine → List LyricLine
  | [] => [x]
  | y :: ys => if y.startTimeMs ≤ x.startTimeMs then y :: insertByTime x ys else x :: y :: ys

/-- Stable ascending sort by `startTimeMs`, modelling
`lines.sort((a, b) => a.startTimeMs - b.startTimeMs)`. -/
def sortByTime (l : List LyricLine) : List LyricLine :=
  l.foldl (fun acc x => insertByTime x acc) []

/-- The LRC parser `parseLRCLyrics` of `server.js`: scan for timestamp tags,
convert each to a line, fall back to untimed plain lines when no timestamped
line was produced, and finally sort (stably) by time. -/
def parseLRCLyrics (lrcText : String) : List LyricLine :=
  if lrcText = "" then []
  else
    let matched := (scanLRC lrcText.data).filterMap rawToLine
    let lines := if matched = [] then fallbackLines lrcText else matched
    sortByTime lines

/-- Sync type of a lyrics result. -/
inductive SyncType
  | LINE_SYNCED
  | UNSYNCED
deriving DecidableEq, Repr

/-- The `lyrics` object of a provider result: `{ lines, syncType, language }`. -/
structure Lyrics where
  lines : List LyricLine
  syncType : SyncType
  language : String
deriving DecidableEq, Repr

/-- A provider adapter result: `{ lyrics, source }`. -/
structure SourceResult where
  lyrics : Lyrics
  source : String
deriving DecidableEq, Repr

/-- Normalization core of `getLRCLibLyrics`, starting from the fields of the
first search hit (`syncedLyrics`, `plainLyrics`, `lang`; `""` models an absent
field, matching the source's truthiness tests).  The synced field is preferred
and `syncType` is set from its presence, not from the parsed offsets. -/
def getLRCLibNormalize (syncedLyrics plainLyrics lang : String) : Option SourceResult :=
  if syncedLyrics = "" ∧ plainLyrics = "" then none
  else
    let lyricsText := if syncedLyrics = "" then plainLyrics else syncedLyrics
    let isSynced := syncedLyrics ≠ ""
    let lines := parseLRCLyrics lyricsText
    if lines = [] then none
    else
      some ⟨⟨lines, if isSynced then .LINE_SYNCED else .UNSYNCED,
             if lang = "" then "en" else lang⟩,
            if isSynced then "LRCLIB API (synced)" else "LRCLIB API (plain)"⟩

/-- Normalization core of `getNetEaseLyrics`, starting from the fetched
`lrc.lyric` text (`""` models an absent field).  `syncType` is computed from
the parsed lines (`lines.some(l => l.startTimeMs && l.startTimeMs > 0)`). -/
def getNetEaseNormalize (lrcText : String) : Option SourceResult :=
  if lrcText = "" then none
  else
    let lines := parseLRCLyrics lrcText
    if lines = [] then none
    else
      let hasTimestamps := lines.any (fun l => decide (0 < l.startTimeMs))
      some ⟨⟨lines, if hasTimestamps then .LINE_SYNCED else .UNSYNCED, "zh"⟩,
            if hasTimestamps then "NetEase Cloud Music (synced)"
            else "NetEase Cloud Music (plain)"⟩

/-- Normalization core of `getQQMusicLyrics`, starting from the base64-decoded
lyric text (the JSONP stripping and base64 decoding happen upstream of this
core).  Identical `syncType` computation to NetEase. -/
def getQQMusicNormalize (lrcText : String) : Option SourceResult :=
  let lines := parseLRCLyrics lrcText
  if lines = [] then none
  else
    let hasTimestamps := lines.any (fun l => decide (0 < l.startTimeMs))
    some ⟨⟨lines, if hasTimestamps then .LINE_SYNCED else .UNSYNCED, "zh"⟩,
          if hasTimestamps then "QQ Music (synced)" else "QQ Music (plain)"⟩

/-- Subtitle path of `getMusixmatchLyricsOfficial`: the subtitle body is run
through the LRC parser and `syncType` is unconditionally `LINE_SYNCED`
(no check of the parsed offsets and no emptiness check). -/
def musixmatchSubtitleResult (subtitleText subtitleLanguage : String) : SourceResult :=
  ⟨⟨parseLRCLyrics subtitleText, .LINE_SYNCED,
    if subtitleLanguage = "" then "en" else subtitleLanguage⟩,
   "Musixmatch API (subtitle)"⟩

/-- The commercial-use disclaimer stripped from Musixmatch plain lyrics. -/
def musixmatchDisclaimer : String :=
  "******* This Lyrics is NOT for Commercial use *******"

/-- Checks whether `pat` occurs as a contiguous substring of `l`
(JavaScript `String.prototype.includes`). -/
def isSubstr (pat : List Char) : List Char → Bool
  | [] => List.isPrefixOf pat []
  | c :: cs => List.isPrefixOf pat (c :: cs) || isSubstr pat cs

/-- The part of `l` before the first occurrence of `pat`
(JavaScript `s.split(pat)[0]` when `pat` occurs in `s`). -/
def beforeSubstr (pat : List Char) : List Char → List Char
  | [] => []
  | c :: cs => if List.isPrefixOf pat (c :: cs) then [] else c :: beforeSubstr pat cs

/-- Plain-lyrics path of `getMusixmatchLyricsOfficial`: strip the disclaimer
suffix, split into lines, keep the lines that are non-empty after trimming
(with their original untrimmed text), give every line `startTimeMs = 0` and
mark the result `UNSYNCED`. -/
def musixmatchPlainResult (lyricsBody lyricsLanguage : String) : SourceResult :=
  let lyricsText :=
    if isSubstr musixmatchDisclaimer.data lyricsBody.data then
      jsTrimS (String.mk (beforeSubstr musixmatchDisclaimer.data lyricsBody.data))
    else lyricsBody
  let lines := (splitOnNewline lyricsText.data).filter (fun l => jsTrimList l != [])
  ⟨⟨lines.map (fun text => ⟨String.mk text, 0⟩), .UNSYNCED,
    if lyricsLanguage = "" then "en" else lyricsLanguage⟩,
   "Musixmatch API (lyrics)"⟩

/-- Outcome of invoking one provider adapter: it either returns normally
(possibly with `null`, modelled as `none`) or throws; `getAllLyricsSources`
catches the throw and moves on. -/
inductive ProviderOutcome
  | ok (r : Option SourceResult)
  | throws
deriving DecidableEq, Repr

/-- The pipeline's usability test on a provider's return value:
`result && result.lyrics && result.lyrics.lines && result.lyrics.lines.length > 0`;
a thrown error is never usable. -/
def usableResult : ProviderOutcome → Option SourceResult
  | .ok (some s) => if s.lyrics.lines.isEmpty then none else some s
  | .ok none => none
  | .throws => none

/-- The `for (const source of sources)` loop of `getAllLyricsSources`: invoke
each provider in order, return the first usable result; also counts how many
providers were invoked before (and including) the deciding one. -/
def runSources : List ProviderOutcome → Option SourceResult × Nat
  | [] => (none, 0)
  | o :: rest =>
    match usableResult o with
    | some s => (some s, 1)
    | none =>
      let r := runSources rest
      (r.1, r.2 + 1)

/-- The resolution pipeline `getAllLyricsSources` with its fixed provider
order LRCLIB → NetEase → QQ Music → Musixmatch; returns the winning result
(if any) together with the number of providers invoked. -/
def getAllLyricsSources (lrclib netease qq musixmatch : ProviderOutcome) :
    Option SourceResult × Nat :=
  runSources [lrclib, netease, qq, musixmatch]

/-- Replaces en dash and em dash by a plain hyphen
(`fullTitle.replace(/[–—]/g, '-')`). -/
def replaceDashes (l : List Char) : List Char :=
  l.map (fun c => if c = '–' ∨ c = '—' then '-' else c)

/-- Backtracking of the second `\s*` of `(.+?)\s*-\s*(.+)$`: starting from the
greedy whitespace-run length `j` and shrinking it, the first start that leaves
a non-empty tail free of line terminators (which `.` cannot match) yields
group 2. -/
def group2From (r2 : List Char) : Nat → Option (List Char)
  | 0 => if r2 ≠ [] ∧ r2.all (fun c => !jsDotNomatch c) then some r2 else none
  | j + 1 =>
    let g := r2.drop (j + 1)
    if g ≠ [] ∧ g.all (fun c => !jsDotNomatch c) then some g else group2From r2 j

/-- Matches `\s*-\s*(.+)$` at the given characters: the first `\s*` is a
maximal whitespace run (no shorter run can expose a hyphen, since whitespace
is never a hyphen), then the hyphen, then group 2 via `group2From`. -/
def tailMatch (rest : List Char) : Option (List Char) :=
  match rest.dropWhile jsIsSpace with
  | c :: r2 =>
    if c = '-' then group2From r2 (r2.takeWhile jsIsSpace).length else none
  | [] => none

/-- Lazy scan of `^(.+?)\s*-\s*(.+)$`: group 1 grows one character at a time
(it cannot contain a line terminator, so reaching one fails every larger
group 1 as well), and at each size the rest of the pattern is tried on the
remaining characters.  Returns (group 1, group 2) for the shortest group 1
that admits a match. -/
def lazySplitAux : List Char → List Char → Option (List Char × List Char)
  | _, [] => none
  | g1rev, c :: cs =>
    if jsDotNomatch c then none
    else
      match tailMatch cs with
      | some g2 => some ((c :: g1rev).reverse, g2)
      | none => lazySplitAux (c :: g1rev) cs

/-- The `{artist, title}` pair produced by the title/artist normalizer. -/
structure ParsedTrack where
  artist : String
  title : String
deriving DecidableEq, Repr

/-- The title/artist normalizer `parseTrackTitleWithDash` of `server.js`:
normalize dashes, trim, match `^(.+?)\s*-\s*(.+)$`, trim both groups and
accept only non-empty segments with artist shorter than 100 and title shorter
than 200 characters. -/
def parseTrackTitleWithDash (fullTitle : String) : Option ParsedTrack :=
  if fullTitle = "" then none
  else
    let normalized := jsTrimList (replaceDashes fullTitle.data)
    match lazySplitAux [] normalized with
    | some (g1, g2) =>
      let artist := jsTrimList g1
      let title := jsTrimList g2
      if artist ≠ [] ∧ title ≠ [] ∧ artist.length < 100 ∧ title.length < 200 then
        some ⟨String.mk artist, String.mk title⟩
      else none
    | none => none

/-- The dash gate at the lyrics endpoint:
`title && (title.includes(' - ') || title.includes('-'))`. -/
def hasDashGate (title : String) : Bool :=
  title != "" && (isSubstr " - ".data title.data || isSubstr "-".data title.data)

/-- The title/artist rewriting performed by `GET /api/lyricstify/lyrics` after
metadata resolution and before any provider call (the three sequential `if`
blocks).  `""` models an absent query parameter.  Returns the (title, artist)
pair the pipeline is invoked with. -/
def endpointNormalize (title artist : String) : String × String :=
  let s1 :=
    if hasDashGate title then
      match parseTrackTitleWithDash title with
      | some p => (p.title, p.artist)
      | none => (title, artist)
    else (title, artist)
  let s2 :=
    if s1.1 ≠ "" ∧ s1.2 = "" then
      match parseTrackTitleWithDash s1.1 with
      | some p => (p.title, p.artist)
      | none => s1
    else s1
  let s3 :=
    if s2.2 ≠ "" ∧ s2.1 = "" then
      match parseTrackTitleWithDash s2.2 with
      | some p => (p.title, p.artist)
      | none => s2
    else s2
  s3

/-- Decimal digits of a natural number, fuelled structural recursion
(`fuel = n + 1` always suffices since the argument shrinks by a factor 10). -/
def natToCharsAux : Nat → Nat → List Char
  | 0, _ => []
  | fuel + 1, n =>
    if n < 10 then [Char.ofNat (48 + n)]
    else natToCharsAux fuel (n / 10) ++ [Char.ofNat (48 + n % 10)]

/-- Decimal digits of a natural number (JavaScript `Number.prototype.toString`
for a non-negative integer). -/
def natToChars (n : Nat) : List Char :=
  natToCharsAux (n + 1) n

/-- JavaScript `padStart(2, '0')`: left-pad with zeros to length at least 2. -/
def pad2 (s : List Char) : List Char :=
  if s.length < 2 then List.replicate (2 - s.length) '0' ++ s else s

/-- Serialization of one line by the lyrics endpoint: a line with offset 0
under `UNSYNCED` becomes bare trimmed text, every other line gets a
`[mm:ss.cc]` tag with minutes `⌊t/60000⌋`, seconds `⌊t/1000⌋ mod 60` and
centiseconds `⌊(t mod 1000)/10⌋`, each `padStart(2, '0')`-padded. -/
def serializeLine (syncType : SyncType) (line : LyricLine) : String :=
  if line.startTimeMs = 0 ∧ syncType = .UNSYNCED then jsTrimS line.words
  else
    String.mk ('[' :: pad2 (natToChars (line.startTimeMs / 60000)) ++
               ':' :: pad2 (natToChars (line.startTimeMs / 1000 % 60)) ++
               '.' :: pad2 (natToChars (line.startTimeMs % 1000 / 10)) ++
               ']' :: (jsTrimS line.words).data)

/-- Full output serialization of the winning result's lines: drop lines whose
words are empty after trimming, serialize each, drop serialized lines that are
empty after trimming, and join with newlines. -/
def serializeLyrics (ly : Lyrics) : String :=
  String.intercalate "\n"
    (((ly.lines.filter (fun l => jsTrimS l.words != "")).map
        (serializeLine ly.syncType)).filter (fun s => jsTrimS s != ""))

/-- Responses of the lyrics endpoint relevant to the modelled path
(title/artist supplied directly, no track-id resolution). -/
inductive EndpointResponse
  | badRequest
  | notFound (title artist : String)
  | ok (lrc : String) (syncType : SyncType) (source language : String)
deriving DecidableEq, Repr

/-- The title/artist path of `GET /api/lyricstify/lyrics`: rewrite the pair,
reject if either part is missing, run the pipeline, answer 404 echoing the
attempted title/artist when nothing usable was found, else serialize the
winner.  The function is total: every provider failure surfaces as a
`ProviderOutcome` absorbed by the pipeline, never as an exception. -/
def lyricsEndpoint (title artist : String)
    (lrclib netease qq musixmatch : ProviderOutcome) : EndpointResponse :=
  let ta := endpointNormalize title artist
  if ta.1 = "" ∨ ta.2 = "" then .badRequest
  else
    match (getAllLyricsSources lrclib netease qq musixmatch).1 with
    | none => .notFound ta.1 ta.2
    | some r =>
      if r.lyrics.lines = [] then .notFound ta.1 ta.2
      else .ok (serializeLyrics r.lyrics) r.lyrics.syncType r.source r.lyrics.language

/-- Rendering of the specification's sync-type invariant (claim C3):
`syncType = LINE_SYNCED` iff at least one line has `offsetMs > 0`. -/
def syncTypeInvariant (r : SourceResult) : Prop :=
  r.lyrics.syncType = .LINE_SYNCED ↔
    r.lyrics.lines.any (fun l => decide (0 < l.startTimeMs)) = true

instance (r : SourceResult) : Decidable (syncTypeInvariant r) := by
  unfold syncTypeInvariant; infer_instance

/-- Rendering of the specification's serialized-line shape (claim C6): a
`[mm:ss.cc]` tag with exactly two digits in each of the three fields. -/
def twoDigitTagShape (out : List Char) : Bool :=
  match out with
  | '[' :: a :: b :: ':' :: c :: d :: '.' :: e :: f :: ']' :: _ =>
    a.isDigit && b.isDigit && c.isDigit && d.isDigit && e.isDigit && f.isDigit
  | _ => false

/-- Rendering of the specification's fallback contract (claim C8): every
non-empty, non-metadata line is returned as an untimed line, with its text
unchanged, in original order. -/
def c8ClaimLines (t : String) : List LyricLine :=
  ((splitOnNewline t.data).filter
      (fun line => jsTrimList line != [] && !isMetadataLine line)).map
    (fun line => ⟨String.mk line, 0⟩)

/-! Helper lemmas about the embedded primitives. -/

theorem mem_of_mem_dropWhile {p : Char → Bool} {c : Char} :
    ∀ {l : List Char}, c ∈ l.dropWhile p → c ∈ l := by
  intro l
  induction l with
  | nil => intro h; exact absurd h (by simp)
  | cons a t ih =>
    intro h
    by_cases hp : p a
    · rw [List.dropWhile_cons, if_pos hp] at h
      exact List.mem_cons_of_mem a (ih h)
    · rw [List.dropWhile_cons, if_neg hp] at h
      exact h

theorem length_dropWhile_le (p : Char → Bool) (l : List Char) :
    (l.dropWhile p).length ≤ l.length := by
  conv_rhs => rw [← List.takeWhile_append_dropWhile (p := p) (l := l)]
  rw [List.length_append]
  omega

theorem dropWhile_eq_self_head {p : Char → Bool} {c : Char} {t : List Char}
    (h : (c :: t).dropWhile p = c :: t) : p c = false := by
  by_cases hp : p c
  · rw [List.dropWhile_cons, if_pos hp] at h
    have := length_dropWhile_le p t
    have := congrArg List.length h
    simp at this
    omega
  · exact Bool.of_not_eq_true hp

theorem trim_eq_self_front {l : List Char} (h : jsTrimList l = l) :
    l.dropWhile jsIsSpace = l := by
  have hsplit := List.takeWhile_append_dropWhile (p := jsIsSpace) (l := l)
  have hlen1 : (jsTrimList l).length ≤ (l.dropWhile jsIsSpace).length := by
    unfold jsTrimList
    rw [List.length_reverse]
    calc ((l.dropWhile jsIsSpace).reverse.dropWhile jsIsSpace).length
        ≤ (l.dropWhile jsIsSpace).reverse.length :=
          length_dropWhile_le _ _
      _ = (l.dropWhile jsIsSpace).length := List.length_reverse _
  rw [h] at hlen1
  have hlen2 := congrArg List.length hsplit
  rw [List.length_append] at hlen2
  have htw : (l.takeWhile jsIsSpace).length = 0 := by omega
  rw [List.length_eq_zero] at htw
  rw [htw] at hsplit
  simpa using hsplit

theorem trim_eq_self_back {l : List Char} (h : jsTrimList l = l) :
    l.reverse.dropWhile jsIsSpace = l.reverse := by
  have hf := trim_eq_self_front h
  unfold jsTrimList at h
  rw [hf] at h
  have := congrArg List.reverse h
  rwa [List.reverse_reverse] at this

theorem dropWhile_append_left {p : Char → Bool} {l : List Char} (m : List Char)
    (h : l.dropWhile p ≠ []) : (l ++ m).dropWhile p = l.dropWhile p ++ m := by
  induction l with
  | nil => simp at h
  | cons a t ih =>
    by_cases hp : p a
    · have h2 : t.dropWhile p ≠ [] := by rwa [List.dropWhile_cons, if_pos hp] at h
      rw [List.cons_append, List.dropWhile_cons, if_pos hp,
          List.dropWhile_cons, if_pos hp, ih h2]
    · rw [List.cons_append, List.dropWhile_cons, if_neg hp,
          List.dropWhile_cons, if_neg hp]
      simp

theorem dropWhile_ne_nil_of_mem {p : Char → Bool} {l : List Char} {c : Char}
    (hc : c ∈ l) (hp : p c = false) : l.dropWhile p ≠ [] := by
  intro hnil
  rw [List.dropWhile_eq_nil_iff] at hnil
  rw [hnil c hc] at hp
  simp at hp

theorem replaceDashes_eq_self {l : List Char}
    (h : ∀ c ∈ l, c ≠ '–' ∧ c ≠ '—') : replaceDashes l = l := by
  unfold replaceDashes
  induction l with
  | nil => rfl
  | cons a t ih =>
    have ha := h a (List.mem_cons_self a t)
    rw [List.map_cons, if_neg (by tauto), ih fun c hc => h c (List.mem_cons_of_mem a hc)]

theorem mem_of_mem_jsTrimList {l : List Char} {c : Char}
    (h : c ∈ jsTrimList l) : c ∈ l := by
  unfold jsTrimList at h
  rw [List.mem_reverse] at h
  have h1 := mem_of_mem_dropWhile h
  rw [List.mem_reverse] at h1
  exact mem_of_mem_dropWhile h1

theorem isPrefixOf_mem {pat l : List Char} (h : pat.isPrefixOf l) :
    ∀ c ∈ pat, c ∈ l := by
  induction pat generalizing l with
  | nil => intro c hc; exact absurd hc (by simp)
  | cons a t ih =>
    cases l with
    | nil => simp [List.isPrefixOf] at h
    | cons b m =>
      simp only [List.isPrefixOf, Bool.and_eq_true, beq_iff_eq] at h
      intro c hc
      rcases List.mem_cons.mp hc with hca | hct
      · rw [hca, h.1]; exact List.mem_cons_self b m
      · exact List.mem_cons_of_mem b (ih h.2 c hct)

theorem mem_of_isSubstr {pat l : List Char} (h : isSubstr pat l = true) :
    ∀ c ∈ pat, c ∈ l := by
  induction l with
  | nil =>
    unfold isSubstr at h
    intro c hc
    exact absurd hc (by simpa using isPrefixOf_mem h c)
  | cons a t ih =>
    unfold isSubstr at h
    rw [Bool.or_eq_true] at h
    intro c hc
    rcases h with h | h
    · exact isPrefixOf_mem h c hc
    · exact List.mem_cons_of_mem a (ih h c hc)

theorem insertByTime_append {x : LyricLine} :
    ∀ {acc : List LyricLine}, (∀ y ∈ acc, y.startTimeMs ≤ x.startTimeMs) →
    insertByTime x acc = acc ++ [x] := by
  intro acc
  induction acc with
  | nil => intro _; rfl
  | cons y ys ih =>
    intro h
    unfold insertByTime
    rw [if_pos (h y (List.mem_cons_self y ys)),
        ih fun z hz => h z (List.mem_cons_of_mem y hz)]
    rfl

theorem sortByTime_all_zero {l : List LyricLine}
    (h : ∀ x ∈ l, x.startTimeMs = 0) : sortByTime l = l := by
  unfold sortByTime
  suffices haux : ∀ (l acc : List LyricLine), (∀ x ∈ l, x.startTimeMs = 0) →
      (∀ y ∈ acc, y.startTimeMs = 0) →
      l.foldl (fun acc x => insertByTime x acc) acc = acc ++ l by
    simpa using haux l [] h (by simp)
  intro l
  induction l with
  | nil => intro acc _ _; simp
  | cons x xs ih =>
    intro acc hl hacc
    rw [List.foldl_cons]
    have hins : insertByTime x acc = acc ++ [x] :=
      insertByTime_append fun y hy => by
        rw [hacc y hy, hl x (List.mem_cons_self x xs)]
    rw [hins, ih (acc ++ [x])
      (fun z hz => hl z (List.mem_cons_of_mem x hz))
      (fun y hy => by
        rcases List.mem_append.mp hy with h1 | h1
        · exact hacc y h1
        · rw [List.mem_singleton.mp h1]; exact hl x (List.mem_cons_self x xs))]
    simp

theorem fallbackLines_all_zero (t : String) :
    ∀ l ∈ fallbackLines t, l.startTimeMs = 0 := by
  intro l hl
  unfold fallbackLines at hl
  rcases List.mem_filterMap.mp hl with ⟨line, _, hline⟩
  by_cases hc : jsTrimList (stripTags line) = []
  · simp only [hc, if_pos] at hline
    exact absurd hline (by simp)
  · simp only [if_neg hc] at hline
    rw [← Option.some_inj.mp hline]

theorem parsed_fields_ne_empty {s : String} {p : ParsedTrack}
    (h : parseTrackTitleWithDash s = some p) : p.artist ≠ "" ∧ p.title ≠ "" := by
  unfold parseTrackTitleWithDash at h
  by_cases hs : s = ""
  · rw [if_pos hs] at h; exact absurd h (by simp)
  · rw [if_neg hs] at h
    rcases hm : lazySplitAux [] (jsTrimList (replaceDashes s.data)) with _ | ⟨g1, g2⟩
    · simp only [hm] at h
      exact absurd h (by simp)
    · simp only [hm] at h
      by_cases hcond : jsTrimList g1 ≠ [] ∧ jsTrimList g2 ≠ [] ∧
          (jsTrimList g1).length < 100 ∧ (jsTrimList g2).length < 200
      · rw [if_pos hcond] at h
        have hp := Option.some_inj.mp h
        constructor
        · rw [← hp]
          intro habs
          exact hcond.1 (by
            have : (String.mk (jsTrimList g1)).data = ("" : String).data :=
              congrArg String.data habs
            simpa using this)
        · rw [← hp]
          intro habs
          exact hcond.2.1 (by
            have : (String.mk (jsTrimList g2)).data = ("" : String).data :=
              congrArg String.data habs
            simpa using this)
      · rw [if_neg hcond] at h; exact absurd h (by simp)

theorem natToCharsAux_small {fuel n : Nat} (hf : 0 < fuel) (h : n < 10) :
    natToCharsAux fuel n = [Char.ofNat (48 + n)] := by
  cases fuel with
  | zero => omega
  | succ m => simp only [natToCharsAux, if_pos h]

theorem natToCharsAux_length_pos {fuel n : Nat} (hf : 0 < fuel) :
    1 ≤ (natToCharsAux fuel n).length := by
  cases fuel with
  | zero => omega
  | succ m =>
    simp only [natToCharsAux]
    by_cases h : n < 10
    · rw [if_pos h]; simp
    · rw [if_neg h]; simp

theorem natToChars_length_pos (n : Nat) : 1 ≤ (natToChars n).length :=
  natToCharsAux_length_pos (by omega)

theorem natToChars_length_le_two {n : Nat} (h : n < 100) :
    (natToChars n).length ≤ 2 := by
  unfold natToChars
  by_cases h1 : n < 10
  · rw [natToCharsAux_small (by omega) h1]; simp
  · simp only [natToCharsAux, if_neg h1]
    rw [List.length_append, natToCharsAux_small (by omega) (by omega : n / 10 < 10)]
    simp

theorem natToCharsAux_length_ge_two {fuel n : Nat} (hf : 1 < fuel) (h : 10 ≤ n) :
    2 ≤ (natToCharsAux fuel n).length := by
  cases fuel with
  | zero => omega
  | succ m =>
    simp only [natToCharsAux, if_neg (by omega : ¬n < 10)]
    rw [List.length_append]
    have := @natToCharsAux_length_pos m (n / 10) (by omega)
    simp
    omega

theorem natToChars_length_ge_three {n : Nat} (h : 100 ≤ n) :
    3 ≤ (natToChars n).length := by
  unfold natToChars
  simp only [natToCharsAux, if_neg (by omega : ¬n < 10)]
  rw [List.length_append]
  have := @natToCharsAux_length_ge_two n (n / 10) (by omega) (by omega)
  simp
  omega

theorem pad2_length_of_le {s : List Char} (h : s.length ≤ 2) :
    (pad2 s).length = 2 := by
  unfold pad2
  by_cases h2 : s.length < 2
  · rw [if_pos h2, List.length_append, List.length_replicate]
    omega
  · rw [if_neg h2]
    omega

theorem pad2_eq_self {s : List Char} (h : 2 ≤ s.length) : pad2 s = s := by
  unfold pad2
  rw [if_neg (by omega)]

/-! Theorems settling the claims. -/

/-- Claim C1 (code bug, evaluation at the failing input): on
`"[00:00.050]Hello"` the parser returns offset 500 ms, because the source
branches on the `parseInt` value of the fraction (`< 100` means hundredths)
instead of on its digit count, although a three-digit fraction is documented
as milliseconds — the claim (and the code's own comments) demand 50 ms. -/
theorem c1_three_digit_fraction_eval :
    parseLRCLyrics "[00:00.050]Hello" = [⟨"Hello", 500⟩] ∧
    parseLRCLyrics "[00:00.050]Hello" ≠ [⟨"Hello", 50⟩] := by
  exact ⟨by decide, by decide⟩

/-- Claim C2: the pipeline attempts LRCLIB, NetEase, QQ Music, Musixmatch in
that fixed order; the first provider whose outcome is usable (non-null with a
non-empty `lines`) wins, and the invocation count equals its position, so no
later provider is invoked. -/
theorem c2_pipeline_order (o1 o2 o3 o4 : ProviderOutcome) (s : SourceResult) :
    (usableResult o1 = some s → getAllLyricsSources o1 o2 o3 o4 = (some s, 1)) ∧
    (usableResult o1 = none → usableResult o2 = some s →
      getAllLyricsSources o1 o2 o3 o4 = (some s, 2)) ∧
    (usableResult o1 = none → usableResult o2 = none → usableResult o3 = some s →
      getAllLyricsSources o1 o2 o3 o4 = (some s, 3)) ∧
    (usableResult o1 = none → usableResult o2 = none → usableResult o3 = none →
      usableResult o4 = some s → getAllLyricsSources o1 o2 o3 o4 = (some s, 4)) := by
  refine ⟨?_, ?_, ?_, ?_⟩ <;> intros <;> simp [getAllLyricsSources, runSources, *]

/-- Claim C2, witness: a usable LRCLIB outcome wins with exactly one provider
invoked, so NetEase/QQ/Musixmatch are never attempted. -/
theorem c2_pipeline_order_witness :
    usableResult (.ok (some ⟨⟨[⟨"x", 1000⟩], .LINE_SYNCED, "en"⟩, "s"⟩)) =
      some ⟨⟨[⟨"x", 1000⟩], .LINE_SYNCED, "en"⟩, "s"⟩ ∧
    getAllLyricsSources (.ok (some ⟨⟨[⟨"x", 1000⟩], .LINE_SYNCED, "en"⟩, "s"⟩))
      .throws .throws .throws =
      (some ⟨⟨[⟨"x", 1000⟩], .LINE_SYNCED, "en"⟩, "s"⟩, 1) :=
  ⟨by decide, (c2_pipeline_order _ _ _ _ _).1 (by decide)⟩

/-- Claim C3 (counterexample): the LRCLIB adapter applied to a non-empty
`syncedLyrics` field whose text parses to untimed lines produces
`syncType = LINE_SYNCED` although no line has a positive offset, refuting the
claimed invariant. -/
theorem c3_sync_invariant_counterexample :
    getLRCLibNormalize "Hello" "" "" =
      some ⟨⟨[⟨"Hello", 0⟩], .LINE_SYNCED, "en"⟩, "LRCLIB API (synced)"⟩ ∧
    ¬ syncTypeInvariant ⟨⟨[⟨"Hello", 0⟩], .LINE_SYNCED, "en"⟩, "LRCLIB API (synced)"⟩ := by
  exact ⟨by decide, by decide⟩

/-- Claim C3 (amended): the offset-based invariant holds for the NetEase and
QQ Music adapters, which compute `syncType` from the parsed lines; the LRCLIB
adapter instead sets `LINE_SYNCED` iff the `syncedLyrics` field was present,
and the official Musixmatch adapter sets `LINE_SYNCED` unconditionally on its
subtitle path and `UNSYNCED` (with all offsets 0) on its plain-lyrics path. -/
theorem c3_sync_invariant_amended :
    (∀ (lrcText : String) (r : SourceResult), getNetEaseNormalize lrcText = some r →
      syncTypeInvariant r) ∧
    (∀ (lrcText : String) (r : SourceResult), getQQMusicNormalize lrcText = some r →
      syncTypeInvariant r) ∧
    (∀ (synced plain lang : String) (r : SourceResult),
      getLRCLibNormalize synced plain lang = some r →
      (r.lyrics.syncType = .LINE_SYNCED ↔ synced ≠ "")) ∧
    (∀ subtitleText lang : String,
      (musixmatchSubtitleResult subtitleText lang).lyrics.syncType = .LINE_SYNCED) ∧
    (∀ body lang : String,
      (musixmatchPlainResult body lang).lyrics.syncType = .UNSYNCED ∧
      ∀ l ∈ (musixmatchPlainResult body lang).lyrics.lines, l.startTimeMs = 0) := by
  refine ⟨?_, ?_, ?_, ?_, ?_⟩
  · intro lrcText r h
    unfold syncTypeInvariant
    simp only [getNetEaseNormalize] at h
    by_cases h0 : lrcText = ""
    · rw [if_pos h0] at h; exact absurd h (by simp)
    · rw [if_neg h0] at h
      by_cases hl : parseLRCLyrics lrcText = []
      · rw [if_pos hl] at h; exact absurd h (by simp)
      · rw [if_neg hl] at h
        by_cases hts :
            ((parseLRCLyrics lrcText).any fun l => decide (0 < l.startTimeMs)) = true
        · simp only [hts, if_true] at h
          injection h with h2
          subst h2
          simp [hts]
        · simp only [Bool.not_eq_true] at hts
          simp only [hts, Bool.false_eq_true, if_false] at h
          injection h with h2
          subst h2
          simp [hts]
  · intro lrcText r h
    unfold syncTypeInvariant
    simp only [getQQMusicNormalize] at h
    by_cases hl : parseLRCLyrics lrcText = []
    · rw [if_pos hl] at h; exact absurd h (by simp)
    · rw [if_neg hl] at h
      by_cases hts :
          ((parseLRCLyrics lrcText).any fun l => decide (0 < l.startTimeMs)) = true
      · simp only [hts, if_true] at h
        injection h with h2
        subst h2
        simp [hts]
      · simp only [Bool.not_eq_true] at hts
        simp only [hts, Bool.false_eq_true, if_false] at h
        injection h with h2
        subst h2
        simp [hts]
  · intro synced plain lang r h
    simp only [getLRCLibNormalize] at h
    by_cases h0 : synced = "" ∧ plain = ""
    · rw [if_pos h0] at h; exact absurd h (by simp)
    · rw [if_neg h0] at h
      by_cases hs : synced = ""
      · by_cases hl : parseLRCLyrics plain = []
        · simp [hs, hl] at h
        · simp only [hs, if_pos, if_true, ite_true, eq_self_iff_true, ne_eq,
            not_true_eq_false, if_false, ite_false] at h
          simp [hl] at h
          subst h
          simp [hs]
      · by_cases hl : parseLRCLyrics synced = []
        · simp [hs, hl] at h
        · simp [hs, hl] at h
          subst h
          simp [hs]
  · intro subtitleText lang
    rfl
  · intro body lang
    refine ⟨rfl, ?_⟩
    intro l hl
    simp only [musixmatchPlainResult, List.mem_map] at hl
    obtain ⟨t, _, rfl⟩ := hl
    rfl

/-- Claim C3 (amended), witness: concrete instantiations of the NetEase part
(untimed text gives `UNSYNCED`) and the LRCLIB part (plain lyrics containing
timestamps still give `UNSYNCED` because the `syncedLyrics` field is absent). -/
theorem c3_sync_invariant_amended_witness :
    (getNetEaseNormalize "Hello" =
      some ⟨⟨[⟨"Hello", 0⟩], .UNSYNCED, "zh"⟩, "NetEase Cloud Music (plain)"⟩) ∧
    syncTypeInvariant ⟨⟨[⟨"Hello", 0⟩], .UNSYNCED, "zh"⟩, "NetEase Cloud Music (plain)"⟩ ∧
    (getLRCLibNormalize "" "[00:01.00]Hi" "" =
      some ⟨⟨[⟨"Hi", 1000⟩], .UNSYNCED, "en"⟩, "LRCLIB API (plain)"⟩) ∧
    ((⟨⟨[⟨"Hi", 1000⟩], .UNSYNCED, "en"⟩, "LRCLIB API (plain)"⟩ :
        SourceResult).lyrics.syncType = .LINE_SYNCED ↔ ("" : String) ≠ "") :=
  ⟨by decide,
   c3_sync_invariant_amended.1 "Hello" _ (by decide),
   by decide,
   c3_sync_invariant_amended.2.2.1 "" "[00:01.00]Hi" "" _ (by decide)⟩

/-- Claim C7: when every provider outcome is unusable (thrown error, null, or
empty `lines`), the endpoint answers NotFound echoing the attempted (rewritten)
title and artist; the pipeline and endpoint are total functions, so no
exception propagates. -/
theorem c7_exhaustion_not_found (title artist : String)
    (o1 o2 o3 o4 : ProviderOutcome)
    (ht : (endpointNormalize title artist).1 ≠ "")
    (ha : (endpointNormalize title artist).2 ≠ "")
    (h1 : usableResult o1 = none) (h2 : usableResult o2 = none)
    (h3 : usableResult o3 = none) (h4 : usableResult o4 = none) :
    lyricsEndpoint title artist o1 o2 o3 o4 =
      .notFound (endpointNormalize title artist).1 (endpointNormalize title artist).2 := by
  simp only [lyricsEndpoint, getAllLyricsSources, runSources, h1, h2, h3, h4]
  rw [if_neg (not_or.mpr ⟨ht, ha⟩)]

/-- Claim C7, witness: all four providers fail in three different ways
(thrown error, null result, result with empty lines) and the endpoint answers
NotFound echoing title and artist. -/
theorem c7_exhaustion_not_found_witness :
    (endpointNormalize "Hello" "World").1 ≠ "" ∧
    (endpointNormalize "Hello" "World").2 ≠ "" ∧
    usableResult (.ok (some ⟨⟨[], .UNSYNCED, "en"⟩, "s"⟩)) = none ∧
    lyricsEndpoint "Hello" "World" .throws (.ok none)
      (.ok (some ⟨⟨[], .UNSYNCED, "en"⟩, "s"⟩)) .throws =
      .notFound "Hello" "World" :=
  ⟨by decide, by decide, by decide,
   c7_exhaustion_not_found "Hello" "World" _ _ _ _ (by decide) (by decide)
     (by decide) (by decide) (by decide) (by decide)⟩

/-- Claim C6 (counterexample): at `offsetMs = 6000000` (100 minutes) the
serialized tag is `[100:00.00]` — the minutes field has three digits, because
`padStart(2,'0')` pads to *at least* two digits — so the claimed
two-digit-everywhere `[mm:ss.cc]` shape fails. -/
theorem c6_two_digit_counterexample :
    serializeLine .LINE_SYNCED ⟨"Hi", 6000000⟩ = "[100:00.00]Hi" ∧
    twoDigitTagShape (serializeLine .LINE_SYNCED ⟨"Hi", 6000000⟩).data = false := by
  exact ⟨by decide, by decide⟩

/-- Claim C6 (amended): a line with offset 0 under `UNSYNCED` is emitted as
bare trimmed text; every other line is emitted as a bracketed tag followed by
the trimmed text, where seconds and centiseconds are always exactly two digits
and minutes are exactly two digits whenever `offsetMs < 6000000` (padding is
`padStart(2,'0')`, so larger offsets yield three or more minute digits). -/
theorem c6_serialization_amended (st : SyncType) (line : LyricLine) :
    (line.startTimeMs = 0 ∧ st = .UNSYNCED →
      serializeLine st line = jsTrimS line.words) ∧
    (¬(line.startTimeMs = 0 ∧ st = .UNSYNCED) →
      serializeLine st line =
        String.mk ('[' :: pad2 (natToChars (line.startTimeMs / 60000)) ++
          ':' :: pad2 (natToChars (line.startTimeMs / 1000 % 60)) ++
          '.' :: pad2 (natToChars (line.startTimeMs % 1000 / 10)) ++
          ']' :: (jsTrimS line.words).data) ∧
      (pad2 (natToChars (line.startTimeMs / 1000 % 60))).length = 2 ∧
      (pad2 (natToChars (line.startTimeMs % 1000 / 10))).length = 2 ∧
      (line.startTimeMs < 6000000 →
        (pad2 (natToChars (line.startTimeMs / 60000))).length = 2)) := by
  constructor
  · intro h
    unfold serializeLine
    rw [if_pos h]
  · intro h
    refine ⟨by unfold serializeLine; rw [if_neg h], ?_, ?_, ?_⟩
    · exact pad2_length_of_le (natToChars_length_le_two (by omega))
    · exact pad2_length_of_le (natToChars_length_le_two (by omega))
    · intro hlt
      exact pad2_length_of_le (natToChars_length_le_two (by omega))

/-- Claim C6 (amended), witness: the bare case at offset 0 under `UNSYNCED`
and the two-digit seconds field of a tagged line at offset 1000 ms. -/
theorem c6_serialization_amended_witness :
    ((0 : Nat) = 0 ∧ SyncType.UNSYNCED = SyncType.UNSYNCED) ∧
    serializeLine .UNSYNCED ⟨" bare ", 0⟩ = jsTrimS " bare " ∧
    (pad2 (natToChars ((1000 : Nat) / 1000 % 60))).length = 2 :=
  ⟨⟨rfl, rfl⟩,
   (c6_serialization_amended .UNSYNCED ⟨" bare ", 0⟩).1 ⟨rfl, rfl⟩,
   ((c6_serialization_amended .LINE_SYNCED ⟨"Hello", 1000⟩).2 (by decide)).2.1⟩

/-- Claim C8 (counterexample): on `"[00:11]\nHello"` the scan finds no valid
tag (the tag has no text), so the fallback runs; the claim demands both
non-empty non-metadata lines back unchanged, but the fallback strips
timestamp-like tags and drops the line that becomes empty, returning only
`"Hello"`. -/
theorem c8_fallback_counterexample :
    parseLRCLyrics "[00:11]\nHello" = [⟨"Hello", 0⟩] ∧
    c8ClaimLines "[00:11]\nHello" = [⟨"[00:11]", 0⟩, ⟨"Hello", 0⟩] ∧
    parseLRCLyrics "[00:11]\nHello" ≠ c8ClaimLines "[00:11]\nHello" := by
  exact ⟨by decide, by decide, by decide⟩

/-- Claim C8 (amended): when the timestamped scan yields no lines, the parser
returns exactly the fallback lines — each non-empty non-metadata line with
timestamp-like tags stripped and trimmed, dropped if that leaves nothing, in
original order (the concluding stable sort is the identity because every
fallback offset is 0) — and every returned line has `startTimeMs = 0`. -/
theorem c8_fallback_amended (t : String)
    (h : (scanLRC t.data).filterMap rawToLine = []) :
    parseLRCLyrics t = fallbackLines t ∧
    ∀ l ∈ parseLRCLyrics t, l.startTimeMs = 0 := by
  have hmain : parseLRCLyrics t = fallbackLines t := by
    unfold parseLRCLyrics
    by_cases ht : t = ""
    · rw [if_pos ht, ht]
      rfl
    · rw [if_neg ht]
      simp only [h]
      rw [if_pos trivial]
      exact sortByTime_all_zero (fallbackLines_all_zero t)
  refine ⟨hmain, ?_⟩
  rw [hmain]
  exact fallbackLines_all_zero t

/-- Claim C8 (amended), witness: a three-line input with a metadata line, at
which the scan is empty and the parser returns the two plain lines untimed in
order. -/
theorem c8_fallback_amended_witness :
    (scanLRC "hi there\n[ar:X]\nsecond".data).filterMap rawToLine = [] ∧
    (parseLRCLyrics "hi there\n[ar:X]\nsecond" =
        fallbackLines "hi there\n[ar:X]\nsecond" ∧
      ∀ l ∈ parseLRCLyrics "hi there\n[ar:X]\nsecond", l.startTimeMs = 0) :=
  ⟨by decide, c8_fallback_amended _ (by decide)⟩

theorem lazySplitAux_none_of_no_hyphen {l : List Char} (h : ∀ c ∈ l, c ≠ '-') :
    ∀ g1rev, lazySplitAux g1rev l = none := by
  induction l with
  | nil => intro g1rev; rfl
  | cons c cs ih =>
    intro g1rev
    unfold lazySplitAux
    by_cases hc : jsDotNomatch c = true
    · rw [if_pos hc]
    · rw [if_neg hc]
      have htail : tailMatch cs = none := by
        unfold tailMatch
        rcases hd : cs.dropWhile jsIsSpace with _ | ⟨c0, r2⟩
        · rfl
        · have hc0 : c0 ∈ cs := by
            have hmem : c0 ∈ cs.dropWhile jsIsSpace := by
              rw [hd]; exact List.mem_cons_self _ _
            exact mem_of_mem_dropWhile hmem
          show (if c0 = '-' then group2From r2 (r2.takeWhile jsIsSpace).length
                else none) = none
          exact if_neg (h c0 (List.mem_cons_of_mem c hc0))
      rw [htail]
      exact ih (fun x hx => h x (List.mem_cons_of_mem c hx)) (c :: g1rev)

/-- Claim C9: the normalizer returns null for a string containing no hyphen
of any kind; it returns null whenever the regex split succeeds but a trimmed
segment is empty or the artist segment reaches 100 or the title segment 200
characters; and when the normalizer rejects both the title and the artist the
endpoint keeps the caller's fields unchanged. -/
theorem c9_normalizer_rejections :
    (∀ s : String, (∀ c ∈ s.data, c ≠ '-' ∧ c ≠ '–' ∧ c ≠ '—') →
      parseTrackTitleWithDash s = none) ∧
    (∀ (s : String) (g1 g2 : List Char),
      lazySplitAux [] (jsTrimList (replaceDashes s.data)) = some (g1, g2) →
      (jsTrimList g1 = [] ∨ jsTrimList g2 = [] ∨
        100 ≤ (jsTrimList g1).length ∨ 200 ≤ (jsTrimList g2).length) →
      parseTrackTitleWithDash s = none) ∧
    (∀ title artist : String, parseTrackTitleWithDash title = none →
      parseTrackTitleWithDash artist = none →
      endpointNormalize title artist = (title, artist)) := by
  refine ⟨?_, ?_, ?_⟩
  · intro s h
    unfold parseTrackTitleWithDash
    by_cases hs : s = ""
    · rw [if_pos hs]
    · rw [if_neg hs]
      have hrep : replaceDashes s.data = s.data :=
        replaceDashes_eq_self (fun c hc => ⟨(h c hc).2.1, (h c hc).2.2⟩)
      have hnone : lazySplitAux [] (jsTrimList s.data) = none :=
        lazySplitAux_none_of_no_hyphen
          (fun c hc => (h c (mem_of_mem_jsTrimList hc)).1) []
      simp only [hrep, hnone]
  · intro s g1 g2 hm hdisj
    unfold parseTrackTitleWithDash
    by_cases hs : s = ""
    · rw [if_pos hs]
    · rw [if_neg hs]
      simp only [hm]
      have hcond : ¬(jsTrimList g1 ≠ [] ∧ jsTrimList g2 ≠ [] ∧
          (jsTrimList g1).length < 100 ∧ (jsTrimList g2).length < 200) := by
        intro hcon
        obtain ⟨hc1, hc2, hc3, hc4⟩ := hcon
        rcases hdisj with h1 | h1 | h1 | h1
        · exact hc1 h1
        · exact hc2 h1
        · omega
        · omega
      rw [if_neg hcond]
  · intro title artist h1 h2
    simp [endpointNormalize, h1, h2]

/-- Claim C9, witness: a hyphen-free string is rejected; a split with a
100-character artist segment is rejected; and the endpoint keeps both fields
when the normalizer rejects them. -/
theorem c9_normalizer_rejections_witness :
    (∀ c ∈ ("Hello" : String).data, c ≠ '-' ∧ c ≠ '–' ∧ c ≠ '—') ∧
    parseTrackTitleWithDash "Hello" = none ∧
    lazySplitAux [] (jsTrimList (replaceDashes
      (String.mk (List.replicate 100 'a' ++ '-' :: ['b'])).data)) =
      some (List.replicate 100 'a', ['b']) ∧
    parseTrackTitleWithDash (String.mk (List.replicate 100 'a' ++ '-' :: ['b'])) = none ∧
    endpointNormalize "Hello" "World" = ("Hello", "World") :=
  ⟨by decide,
   c9_normalizer_rejections.1 "Hello" (by decide),
   by decide,
   c9_normalizer_rejections.2.1 (String.mk (List.replicate 100 'a' ++ '-' :: ['b']))
     (List.replicate 100 'a') ['b'] (by decide) (by decide),
   c9_normalizer_rejections.2.2 "Hello" "World" (by decide) (by decide)⟩

/-- Claim C5: when the title passes the endpoint's dash gate and the
normalizer splits it, the parsed split overrides the supplied artist before
the pipeline is invoked: the endpoint's provider stage runs with the pair
`(p.title, p.artist)` regardless of the supplied artist. -/
theorem c5_title_split_overrides_artist (title artist : String) (p : ParsedTrack)
    (hd : hasDashGate title = true)
    (hp : parseTrackTitleWithDash title = some p) :
    endpointNormalize title artist = (p.title, p.artist) := by
  have hne := parsed_fields_ne_empty hp
  have ha1 : ¬(p.title ≠ "" ∧ p.artist = "") := fun hcon => hne.1 hcon.2
  have ha2 : ¬(p.artist ≠ "" ∧ p.title = "") := fun hcon => hne.2 hcon.2
  simp [endpointNormalize, hd, hp, ha1, ha2]

/-- Claim C5, witness: the spec's scenario — title `"Eminem - Lose Yourself"`
with artist `"someuser123"` resolves with artist `"Eminem"` and title
`"Lose Yourself"`. -/
theorem c5_title_split_overrides_artist_witness :
    hasDashGate "Eminem - Lose Yourself" = true ∧
    parseTrackTitleWithDash "Eminem - Lose Yourself" =
      some ⟨"Eminem", "Lose Yourself"⟩ ∧
    endpointNormalize "Eminem - Lose Yourself" "someuser123" =
      ("Lose Yourself", "Eminem") :=
  ⟨by decide, by decide,
   c5_title_split_overrides_artist "Eminem - Lose Yourself" "someuser123"
     ⟨"Eminem", "Lose Yourself"⟩ (by decide) (by decide)⟩

/-- Claim C10: the endpoint's dash gate tests only the ASCII hyphen, so a
title containing an en or em dash but no ASCII hyphen keeps the supplied
artist even when the normalizer itself would split the title. -/
theorem c10_dash_gate_ascii_only (title artist : String) (p : ParsedTrack)
    (ht : title ≠ "") (ha : artist ≠ "")
    (hnd : ∀ c ∈ title.data, c ≠ '-')
    (_hp : parseTrackTitleWithDash title = some p) :
    endpointNormalize title artist = (title, artist) := by
  have hsub1 : isSubstr " - ".data title.data = false := by
    cases hb : isSubstr " - ".data title.data
    · rfl
    · exact absurd (mem_of_isSubstr hb '-' (by decide))
        (fun hmem => hnd '-' hmem rfl)
  have hsub2 : isSubstr "-".data title.data = false := by
    cases hb : isSubstr "-".data title.data
    · rfl
    · exact absurd (mem_of_isSubstr hb '-' (by decide))
        (fun hmem => hnd '-' hmem rfl)
  have hgate : hasDashGate title = false := by
    unfold hasDashGate
    rw [hsub1, hsub2]
    simp
  have hc2 : ¬(title ≠ "" ∧ artist = "") := fun hcon => ha hcon.2
  have hc3 : ¬(artist ≠ "" ∧ title = "") := fun hcon => ht hcon.2
  simp [endpointNormalize, hgate, hc2, hc3]

/-- Claim C10, witness: `"Eminem – Lose Yourself"` (en dash) with artist
`"someuser123"`: the normalizer would split it, but the gate sees no ASCII
hyphen and the endpoint keeps both fields. -/
theorem c10_dash_gate_ascii_only_witness :
    ("Eminem – Lose Yourself" : String) ≠ "" ∧
    ("someuser123" : String) ≠ "" ∧
    (∀ c ∈ ("Eminem – Lose Yourself" : String).data, c ≠ '-') ∧
    parseTrackTitleWithDash "Eminem – Lose Yourself" =
      some ⟨"Eminem", "Lose Yourself"⟩ ∧
    endpointNormalize "Eminem – Lose Yourself" "someuser123" =
      ("Eminem – Lose Yourself", "someuser123") :=
  ⟨by decide, by decide, by decide, by decide,
   c10_dash_gate_ascii_only "Eminem – Lose Yourself" "someuser123"
     ⟨"Eminem", "Lose Yourself"⟩ (by decide) (by decide) (by decide) (by decide)⟩

theorem head_not_space_of_trim {l : List Char} (ht : jsTrimList l = l) :
    ∀ c ∈ l.take 1, jsIsSpace c = false := by
  intro c hc
  cases l with
  | nil => simp at hc
  | cons a t =>
    simp at hc
    subst hc
    exact dropWhile_eq_self_head (trim_eq_self_front ht)

theorem last_not_space_of_trim {l : List Char} (ht : jsTrimList l = l) :
    ∀ c ∈ l.reverse.take 1, jsIsSpace c = false := by
  intro c hc
  have hb := trim_eq_self_back ht
  cases hr : l.reverse with
  | nil => rw [hr] at hc; simp at hc
  | cons b t =>
    rw [hr] at hc hb
    simp at hc
    subst hc
    exact dropWhile_eq_self_head hb

theorem tailMatch_sep {B : List Char} (hBne : B ≠ [])
    (hBhead : ∀ c ∈ B.take 1, jsIsSpace c = false)
    (hBnl : ∀ c ∈ B, jsDotNomatch c = false) :
    tailMatch (' ' :: '-' :: ' ' :: B) = some B := by
  have hdw : (' ' :: '-' :: ' ' :: B).dropWhile jsIsSpace = '-' :: ' ' :: B := by
    rw [List.dropWhile_cons, if_pos (by decide), List.dropWhile_cons,
        if_neg (by decide)]
  have htwB : B.takeWhile jsIsSpace = [] := by
    cases B with
    | nil => rfl
    | cons b B' =>
      have hb : jsIsSpace b = false := hBhead b (by simp)
      rw [List.takeWhile_cons, if_neg (by simp [hb])]
  have hg2 : group2From (' ' :: B) 1 = some B := by
    show (if B ≠ [] ∧ B.all (fun c => !jsDotNomatch c) then some B
          else group2From (' ' :: B) 0) = some B
    rw [if_pos ⟨hBne, List.all_eq_true.mpr (fun c hc => by simpa using hBnl c hc)⟩]
  unfold tailMatch
  rw [hdw]
  show (if ('-' : Char) = '-' then
        group2From (' ' :: B) ((' ' :: B).takeWhile jsIsSpace).length
        else none) = some B
  rw [if_pos rfl]
  have hlen : ((' ' :: B).takeWhile jsIsSpace).length = 1 := by
    rw [List.takeWhile_cons, if_pos (by decide), htwB]
    rfl
  rw [hlen, hg2]

theorem trim_sep_append {A B : List Char} (hAne : A ≠ [])
    (hAhead : ∀ c ∈ A.take 1, jsIsSpace c = false)
    (hBne : B ≠ []) (hBback : B.reverse.dropWhile jsIsSpace = B.reverse) :
    jsTrimList (A ++ ' ' :: '-' :: ' ' :: B) = A ++ ' ' :: '-' :: ' ' :: B := by
  obtain ⟨a, A', rfl⟩ : ∃ a A', A = a :: A' := by
    cases A with
    | nil => exact absurd rfl hAne
    | cons a A' => exact ⟨a, A', rfl⟩
  have hfa : jsIsSpace a = false := hAhead a (by simp)
  have hfront : ((a :: A') ++ ' ' :: '-' :: ' ' :: B).dropWhile jsIsSpace =
      (a :: A') ++ ' ' :: '-' :: ' ' :: B := by
    rw [List.cons_append, List.dropWhile_cons, if_neg (by simp [hfa])]
  obtain ⟨b, Bt, hBrev⟩ : ∃ b Bt, B.reverse = b :: Bt := by
    cases hb : B.reverse with
    | nil => exact absurd (List.reverse_eq_nil_iff.mp hb) hBne
    | cons b Bt => exact ⟨b, Bt, rfl⟩
  have hfb : jsIsSpace b = false := by
    rw [hBrev] at hBback
    exact dropWhile_eq_self_head hBback
  have hsrev : ((a :: A') ++ ' ' :: '-' :: ' ' :: B).reverse =
      b :: (Bt ++ ((a :: A') ++ [' ', '-', ' ']).reverse) := by
    rw [show (a :: A') ++ ' ' :: '-' :: ' ' :: B =
          ((a :: A') ++ [' ', '-', ' ']) ++ B from by simp,
        List.reverse_append, hBrev, List.cons_append]
  have hback : ((a :: A') ++ ' ' :: '-' :: ' ' :: B).reverse.dropWhile jsIsSpace =
      ((a :: A') ++ ' ' :: '-' :: ' ' :: B).reverse := by
    rw [hsrev, List.dropWhile_cons, if_neg (by simp [hfb])]
  unfold jsTrimList
  rw [hfront, hback, List.reverse_reverse]

theorem lazySplit_exact {B : List Char} (hBne : B ≠ [])
    (hBhead : ∀ c ∈ B.take 1, jsIsSpace c = false)
    (hBnl : ∀ c ∈ B, jsDotNomatch c = false) :
    ∀ (A : List Char) (g1rev : List Char), A ≠ [] →
    (∀ c ∈ A, c ≠ '-' ∧ jsDotNomatch c = false) →
    (∀ c ∈ A.reverse.take 1, jsIsSpace c = false) →
    lazySplitAux g1rev (A ++ ' ' :: '-' :: ' ' :: B) =
      some (g1rev.reverse ++ A, B) := by
  intro A
  induction A with
  | nil => intro g1rev hne _ _; exact absurd rfl hne
  | cons a A' ih =>
    intro g1rev _ hA hAlast
    have ha := hA a (List.mem_cons_self a A')
    rw [List.cons_append]
    unfold lazySplitAux
    rw [if_neg (by simp [ha.2])]
    rcases eq_or_ne A' [] with rfl | hA'ne
    · simp only [List.nil_append]
      rw [tailMatch_sep hBne hBhead hBnl]
      simp
    · have hlastA' : ∀ c ∈ A'.reverse.take 1, jsIsSpace c = false := by
        intro c hc
        apply hAlast
        rw [List.reverse_cons, List.take_append_eq_append_take]
        exact List.mem_append.mpr (Or.inl hc)
      obtain ⟨c0, t0, hr⟩ : ∃ c0 t0, A'.reverse = c0 :: t0 := by
        cases hb : A'.reverse with
        | nil => exact absurd (List.reverse_eq_nil_iff.mp hb) hA'ne
        | cons c0 t0 => exact ⟨c0, t0, rfl⟩
      have hc0mem : c0 ∈ A' := by
        have : c0 ∈ A'.reverse := by rw [hr]; exact List.mem_cons_self _ _
        exact List.mem_reverse.mp this
      have hc0ws : jsIsSpace c0 = false := hlastA' c0 (by rw [hr]; simp)
      have hdne : A'.dropWhile jsIsSpace ≠ [] := dropWhile_ne_nil_of_mem hc0mem hc0ws
      rcases hdA : A'.dropWhile jsIsSpace with _ | ⟨c1, r1⟩
      · exact absurd hdA hdne
      · have hc1 : c1 ∈ A' := mem_of_mem_dropWhile (by
          rw [hdA]; exact List.mem_cons_self _ _)
        have htm : tailMatch (A' ++ ' ' :: '-' :: ' ' :: B) = none := by
          unfold tailMatch
          rw [dropWhile_append_left _ hdne, hdA, List.cons_append]
          show (if c1 = '-' then
                group2From (r1 ++ ' ' :: '-' :: ' ' :: B)
                  ((r1 ++ ' ' :: '-' :: ' ' :: B).takeWhile jsIsSpace).length
                else none) = none
          exact if_neg (hA c1 (List.mem_cons_of_mem a hc1)).1
        rw [htm]
        rw [ih (a :: g1rev) hA'ne
          (fun c hc => hA c (List.mem_cons_of_mem a hc)) hlastA']
        simp

/-- Claim C4 (counterexample): the combined string
`"AC-DC - Back in Black"` has the stated `"<A> - <B>"` form with
`A = "AC-DC"`, `B = "Back in Black"` satisfying all the stated constraints,
but the normalizer splits at the *first* hyphen, which here lies inside the
artist segment, returning `{artist: "AC", title: "DC - Back in Black"}`
instead of `{artist: A, title: B}`. -/
theorem c4_split_counterexample :
    parseTrackTitleWithDash "AC-DC - Back in Black" =
      some ⟨"AC", "DC - Back in Black"⟩ ∧
    some (⟨"AC", "DC - Back in Black"⟩ : ParsedTrack) ≠
      some (⟨"AC-DC", "Back in Black"⟩ : ParsedTrack) := by
  exact ⟨by decide, by decide⟩

/-- Claim C4 (amended): for every combined string `A ++ " - " ++ B` in which
the artist segment `A` contains no hyphen (and neither segment contains an en
dash, em dash or line terminator — LF, CR, LS, PS, which JavaScript `.`
cannot match — both equal their trims and are non-empty, `A` is shorter than
100 and `B` shorter than 200 characters), the normalizer returns
`{artist: A, title: B}`; hyphens inside `B` stay in the title segment. -/
theorem c4_split_amended (A B : String)
    (hAne : A ≠ "") (hBne : B ≠ "")
    (hA : ∀ c ∈ A.data, c ≠ '-' ∧ c ≠ '–' ∧ c ≠ '—' ∧ jsDotNomatch c = false)
    (hB : ∀ c ∈ B.data, c ≠ '–' ∧ c ≠ '—' ∧ jsDotNomatch c = false)
    (hAt : jsTrimList A.data = A.data) (hBt : jsTrimList B.data = B.data)
    (hAlen : A.data.length < 100) (hBlen : B.data.length < 200) :
    parseTrackTitleWithDash (A ++ " - " ++ B) = some ⟨A, B⟩ := by
  have hAd : A.data ≠ [] := by
    intro h
    exact hAne (String.ext (h.trans rfl))
  have hBd : B.data ≠ [] := by
    intro h
    exact hBne (String.ext (h.trans rfl))
  have hsep : (" - " : String).data = [' ', '-', ' '] := by decide
  have hs : (A ++ " - " ++ B).data = A.data ++ ' ' :: '-' :: ' ' :: B.data := by
    rw [show (A ++ " - " ++ B).data = A.data ++ " - ".data ++ B.data from rfl,
        hsep, List.append_assoc]
    rfl
  have hsne : (A ++ " - " ++ B) ≠ "" := by
    intro h
    have hd := congrArg String.data h
    rw [hs] at hd
    exact hAd (List.append_eq_nil.mp hd).1
  have hrep : replaceDashes (A.data ++ ' ' :: '-' :: ' ' :: B.data) =
      A.data ++ ' ' :: '-' :: ' ' :: B.data := by
    apply replaceDashes_eq_self
    intro c hc
    rcases List.mem_append.mp hc with hcA | hcR
    · exact ⟨(hA c hcA).2.1, (hA c hcA).2.2.1⟩
    · rcases List.mem_cons.mp hcR with rfl | hcR
      · exact ⟨by decide, by decide⟩
      · rcases List.mem_cons.mp hcR with rfl | hcR
        · exact ⟨by decide, by decide⟩
        · rcases List.mem_cons.mp hcR with rfl | hcB
          · exact ⟨by decide, by decide⟩
          · exact ⟨(hB c hcB).1, (hB c hcB).2.1⟩
  have htrim : jsTrimList (A.data ++ ' ' :: '-' :: ' ' :: B.data) =
      A.data ++ ' ' :: '-' :: ' ' :: B.data :=
    trim_sep_append hAd (head_not_space_of_trim hAt) hBd (trim_eq_self_back hBt)
  have hlazy : lazySplitAux [] (A.data ++ ' ' :: '-' :: ' ' :: B.data) =
      some (List.reverse [] ++ A.data, B.data) :=
    lazySplit_exact hBd (head_not_space_of_trim hBt)
      (fun c hc => (hB c hc).2.2) A.data [] hAd
      (fun c hc => ⟨(hA c hc).1, (hA c hc).2.2.2⟩)
      (last_not_space_of_trim hAt)
  unfold parseTrackTitleWithDash
  rw [if_neg hsne]
  simp only [hs, hrep, htrim, hlazy, List.reverse_nil, List.nil_append]
  rw [hAt, hBt]
  rw [if_pos ⟨hAd, hBd, hAlen, hBlen⟩]

/-- Claim C4 (amended), witness: `"AC - DC"` splits into artist `"AC"` and
title `"DC"`. -/
theorem c4_split_amended_witness :
    (("AC" : String) ≠ "" ∧ ("DC" : String) ≠ "" ∧
      (∀ c ∈ ("AC" : String).data,
        c ≠ '-' ∧ c ≠ '–' ∧ c ≠ '—' ∧ jsDotNomatch c = false) ∧
      (∀ c ∈ ("DC" : String).data, c ≠ '–' ∧ c ≠ '—' ∧ jsDotNomatch c = false) ∧
      jsTrimList ("AC" : String).data = ("AC" : String).data ∧
      jsTrimList ("DC" : String).data = ("DC" : String).data) ∧
    parseTrackTitleWithDash ("AC" ++ " - " ++ "DC") = some ⟨"AC", "DC"⟩ :=
  ⟨⟨by decide, by decide, by decide, by decide, by decide, by decide⟩,
   c4_split_amended "AC" "DC" (by decide) (by decide) (by decide) (by decide)
     (by decide) (by decide) (by decide) (by decide)⟩
